import Mathlib

/-
Shallow embedding of the synth8 synthesizer core (files synth8/nodes.py,
synth8/modulators.py, synth8/voice.py, synth8/engine.py) over exact real
arithmetic.  numpy arrays are modelled as `List ℝ`; Python operations that
can raise (empty-index access, shape-mismatch broadcasting) are modelled
with `Option`.
-/

namespace Synth8

noncomputable section

/-! ### numpy / Python primitives -/

/-- Python float `x % y` for `y > 0`: `x - y * floor (x / y)`. -/
def pyMod (x y : ℝ) : ℝ := x - y * (⌊x / y⌋ : ℤ)

/-- `np.clip(x, lo, hi)`. -/
def npClip (x lo hi : ℝ) : ℝ := min (max x lo) hi

/-- `np.sign` on a real scalar. -/
def npSign (x : ℝ) : ℝ := if x < 0 then -1 else if 0 < x then 1 else 0

/-- Inclusive running sum starting from accumulator `acc`
(`np.cumsum` is `cumsumAux 0`). -/
def cumsumAux (acc : ℝ) : List ℝ → List ℝ
  | [] => []
  | x :: xs => (acc + x) :: cumsumAux (acc + x) xs

/-- `np.cumsum` on a 1-d array. -/
def cumsum (l : List ℝ) : List ℝ := cumsumAux 0 l

/-- numpy in-place `mix += sig` where `mix` is a 1-d array: requires the
shapes to broadcast to `mix`'s shape (equal length or a 1-element `sig`);
otherwise numpy raises, modelled as `none`. -/
def npAdd (mix sig : List ℝ) : Option (List ℝ) :=
  if sig.length = mix.length then some (List.zipWith (· + ·) mix sig)
  else if sig.length = 1 then some (mix.map (· + sig.headD 0))
  else none

lemma npClip_eq_self {x lo hi : ℝ} (h1 : lo ≤ x) (h2 : x ≤ hi) :
    npClip x lo hi = x := by
  rw [npClip, max_eq_left h1, min_eq_left h2]

lemma pyMod_one (x : ℝ) : pyMod x 1 = Int.fract x := by
  rw [pyMod, div_one, one_mul]
  rfl

lemma cumsumAux_length (acc : ℝ) (l : List ℝ) :
    (cumsumAux acc l).length = l.length := by
  induction l generalizing acc with
  | nil => rfl
  | cons x xs ih => simp only [cumsumAux, List.length_cons, ih]

lemma cumsumAux_replicate (acc c : ℝ) (n : ℕ) :
    cumsumAux acc (List.replicate n c)
      = (List.range n).map (fun (j : ℕ) => acc + ((j : ℝ) + 1) * c) := by
  induction n generalizing acc with
  | zero => rfl
  | succ m ih =>
      rw [List.replicate_succ, cumsumAux, ih (acc + c),
        List.range_succ_eq_map]
      simp only [List.map_cons, List.map_map, Nat.cast_zero]
      refine List.cons_eq_cons.mpr ⟨by ring, ?_⟩
      apply List.map_congr_left
      intro j _
      simp only [Function.comp_apply]
      push_cast; ring

lemma getLastD_range_map (g : ℕ → ℝ) {n : ℕ} (hn : 0 < n) (d : ℝ) :
    ((List.range n).map g).getLastD d = g (n - 1) := by
  obtain ⟨m, rfl⟩ := Nat.exists_eq_add_of_lt hn
  simp only [Nat.zero_add, List.range_succ, List.map_append, List.map_cons,
    List.map_nil, List.getLastD_concat, Nat.add_sub_cancel]

lemma getLast?_range_map (g : ℕ → ℝ) {n : ℕ} (hn : 0 < n) :
    ((List.range n).map g).getLast? = some (g (n - 1)) := by
  obtain ⟨m, rfl⟩ := Nat.exists_eq_add_of_lt hn
  simp only [Nat.zero_add, List.range_succ, List.map_append, List.map_cons,
    List.map_nil, List.getLast?_concat, Nat.add_sub_cancel]

/-! ### SynthOscillator (nodes.py lines 18-85) -/

/-- The oscillator's waveform selector; any other string falls through the
`else` branch of `process` and produces zeros. -/
inductive Waveform
  | sine
  | square
  | saw
  | other
deriving DecidableEq

/-- State of `SynthOscillator`: base frequency, waveform, sample rate, the
running phase accumulator and the optional pending frequency-modulation
buffer (`self._freq_mod`). -/
structure OscState where
  base_freq : ℝ
  waveform : Waveform
  sample_rate : ℝ
  phase : ℝ
  freq_mod : Option (List ℝ)

/-- `SynthOscillator.accept_modulation`. -/
def oscAcceptModulation (s : OscState) (param : String) (buffer : List ℝ) :
    OscState :=
  if param = "freq" then { s with freq_mod := some buffer } else s

/-- The per-sample waveform value, as a function of the accumulated phase:
`sin`, `sign ∘ sin`, the sawtooth `2 * ((phase / 2π) % 1) - 1`, zeros. -/
def oscWave (w : Waveform) : ℝ → ℝ :=
  match w with
  | .sine => Real.sin
  | .square => fun x => npSign (Real.sin x)
  | .saw => fun x => 2 * pyMod (x / (2 * Real.pi)) 1 - 1
  | .other => fun _ => 0

/-- Effective per-sample frequency array of `SynthOscillator.process`:
`clip(base + mod[:frames], 20, 20000)` when a modulation buffer is pending
(length `min mod.length frames`, not necessarily `frames`), else the
clipped base frequency replicated `frames` times. -/
def oscFreqs (s : OscState) (frames : ℕ) : List ℝ :=
  match s.freq_mod with
  | some m => (m.take frames).map (fun x => npClip (s.base_freq + x) 20 20000)
  | none => List.replicate frames (npClip s.base_freq 20 20000)

/-- Per-sample phase increments `2π·f/sampleRate`. -/
def oscIncs (s : OscState) (frames : ℕ) : List ℝ :=
  (oscFreqs s frames).map (fun f => 2 * Real.pi * f / s.sample_rate)

/-- `phase_array = self.phase + np.cumsum(phase_inc)`. -/
def oscPhases (s : OscState) (frames : ℕ) : List ℝ :=
  (cumsum (oscIncs s frames)).map (fun c => s.phase + c)

/-- The waveform block generated from the phase array (the `else` branch
emits `np.zeros(frames)`, whose length is the `frames` argument). -/
def oscSignal (s : OscState) (frames : ℕ) : List ℝ :=
  match s.waveform with
  | .sine => (oscPhases s frames).map (oscWave .sine)
  | .square => (oscPhases s frames).map (oscWave .square)
  | .saw => (oscPhases s frames).map (oscWave .saw)
  | .other => List.replicate frames 0

/-- `SynthOscillator.process`.  `phase_array[-1]` on an empty phase array
raises (IndexError), modelled as `none`; otherwise the stored phase becomes
`phase_array[-1] % 2π` and the generated block is returned. -/
def oscProcess (s : OscState) (frames : ℕ) : Option (List ℝ × OscState) :=
  match (oscPhases s frames).getLast? with
  | none => none
  | some lastPhase =>
      some (oscSignal s frames, { s with phase := pyMod lastPhase (2 * Real.pi) })

/-- The constant per-sample phase increment used when no modulation buffer
is pending: `2π · clip(base, 20, 20000) / sampleRate`. -/
def oscInc (s : OscState) : ℝ :=
  2 * Real.pi * npClip s.base_freq 20 20000 / s.sample_rate

lemma oscWave_bounds (w : Waveform) (x : ℝ) :
    -1 ≤ oscWave w x ∧ oscWave w x ≤ 1 := by
  cases w with
  | sine => exact ⟨Real.neg_one_le_sin x, Real.sin_le_one x⟩
  | square =>
      simp only [oscWave, npSign]
      split
      · norm_num
      · split <;> norm_num
  | saw =>
      simp only [oscWave, pyMod_one]
      have h1 := Int.fract_nonneg (x / (2 * Real.pi))
      have h2 := Int.fract_lt_one (x / (2 * Real.pi))
      constructor <;> nlinarith
  | other => norm_num [oscWave]

/-- All four waveforms are periodic with period `2π` in the accumulated
phase (for `other` trivially). -/
lemma oscWave_add_int_mul_two_pi (w : Waveform) (x : ℝ) (m : ℤ) :
    oscWave w (x + m * (2 * Real.pi)) = oscWave w x := by
  cases w with
  | sine => exact Real.sin_add_int_mul_two_pi x m
  | square => simp only [oscWave, Real.sin_add_int_mul_two_pi]
  | saw =>
      simp only [oscWave, pyMod_one]
      have hπ : (2 : ℝ) * Real.pi ≠ 0 := by positivity
      have harg : (x + m * (2 * Real.pi)) / (2 * Real.pi)
          = x / (2 * Real.pi) + m := by
        field_simp
      rw [harg, Int.fract_add_int]
  | other => rfl

lemma oscPhases_noMod (s : OscState) (hmod : s.freq_mod = none) (n : ℕ) :
    oscPhases s n
      = (List.range n).map (fun (j : ℕ) => s.phase + ((j : ℝ) + 1) * oscInc s) := by
  have hfreqs : oscFreqs s n = List.replicate n (npClip s.base_freq 20 20000) := by
    simp only [oscFreqs, hmod]
  have hincs : oscIncs s n = List.replicate n (oscInc s) := by
    rw [oscIncs, hfreqs, List.map_replicate]
    rfl
  rw [oscPhases, hincs, cumsum, cumsumAux_replicate, List.map_map]
  apply List.map_congr_left
  intro j _
  simp only [Function.comp_apply]
  ring

/-- Closed form of `oscProcess` when no modulation buffer is pending:
sample `j` is the waveform at `phase + (j+1)·inc`, and the new stored phase
is `(phase + frames·inc) % 2π`. -/
lemma oscProcess_noMod (s : OscState) (hmod : s.freq_mod = none)
    {n : ℕ} (hn : 0 < n) :
    oscProcess s n =
      some ((List.range n).map
              (fun (j : ℕ) => oscWave s.waveform (s.phase + ((j : ℝ) + 1) * oscInc s)),
            { s with phase := pyMod (s.phase + (n : ℝ) * oscInc s) (2 * Real.pi) }) := by
  have hph := oscPhases_noMod s hmod n
  have hlast : (oscPhases s n).getLast? = some (s.phase + (n : ℝ) * oscInc s) := by
    rw [hph, getLast?_range_map _ hn]
    congr 1
    have hcast : ((n - 1 : ℕ) : ℝ) = (n : ℝ) - 1 := by
      push_cast [Nat.one_le_iff_ne_zero.mpr hn.ne']
      ring
    rw [hcast]; ring
  have hsig : oscSignal s n = (List.range n).map
      (fun (j : ℕ) => oscWave s.waveform (s.phase + ((j : ℝ) + 1) * oscInc s)) := by
    cases hw : s.waveform with
    | sine => simp only [oscSignal, hw, hph, List.map_map]; rfl
    | square => simp only [oscSignal, hw, hph, List.map_map]; rfl
    | saw => simp only [oscSignal, hw, hph, List.map_map]; rfl
    | other =>
        simp only [oscSignal, hw]
        have hz : (List.range n).map
            (fun (j : ℕ) => oscWave Waveform.other (s.phase + ((j : ℝ) + 1) * oscInc s))
            = (List.range n).map (fun _ => (0 : ℝ)) := by
          apply List.map_congr_left; intro j _; rfl
        rw [hz, List.map_const', List.length_range]
  rw [oscProcess, hlast, hsig]

lemma oscFreqs_length_noMod (s : OscState) (hmod : s.freq_mod = none) (n : ℕ) :
    (oscFreqs s n).length = n := by
  simp [oscFreqs, hmod]

lemma oscFreqs_length_mod (s : OscState) {m : List ℝ}
    (hmod : s.freq_mod = some m) (n : ℕ) :
    (oscFreqs s n).length = min n m.length := by
  simp [oscFreqs, hmod]

lemma oscPhases_length (s : OscState) (n : ℕ) :
    (oscPhases s n).length = (oscFreqs s n).length := by
  simp [oscPhases, cumsum, cumsumAux_length, oscIncs]

lemma oscSignal_eq_map (s : OscState) (hw : s.waveform ≠ Waveform.other)
    (n : ℕ) :
    oscSignal s n = (oscPhases s n).map (oscWave s.waveform) := by
  cases h : s.waveform with
  | sine => rw [oscSignal, h]
  | square => rw [oscSignal, h]
  | saw => rw [oscSignal, h]
  | other => exact absurd h hw

/-- C1 (amended).  For waveforms sine/square/saw and `frames > 0`,
`SynthOscillator.process` returns a block of exactly `frames` samples all
in `[-1, 1]` — provided that any pending frequency-modulation buffer has at
least `frames` samples (a shorter buffer yields a shorter block, see the
counterexample). -/
theorem C1_osc_block_amended (s : OscState) (n : ℕ) (hn : 0 < n)
    (hw : s.waveform = Waveform.sine ∨ s.waveform = Waveform.square ∨
      s.waveform = Waveform.saw)
    (hmod : s.freq_mod = none ∨ ∃ m, s.freq_mod = some m ∧ n ≤ m.length) :
    ∃ out s2, oscProcess s n = some (out, s2) ∧ out.length = n ∧
      ∀ x ∈ out, -1 ≤ x ∧ x ≤ 1 := by
  have hwo : s.waveform ≠ Waveform.other := by
    rcases hw with h | h | h <;> rw [h] <;> intro hc <;> exact Waveform.noConfusion hc
  have hplen : (oscPhases s n).length = n := by
    rw [oscPhases_length]
    rcases hmod with h | ⟨m, h, hlen⟩
    · exact oscFreqs_length_noMod s h n
    · rw [oscFreqs_length_mod s h n]
      omega
  have hne : oscPhases s n ≠ [] := by
    intro hc
    rw [hc] at hplen
    simp at hplen
    omega
  obtain ⟨lp, hlp⟩ := Option.isSome_iff_exists.mp (List.getLast?_isSome.mpr hne)
  refine ⟨oscSignal s n, { s with phase := pyMod lp (2 * Real.pi) }, ?_, ?_, ?_⟩
  · rw [oscProcess, hlp]
  · rw [oscSignal_eq_map s hwo, List.length_map, hplen]
  · rw [oscSignal_eq_map s hwo]
    intro x hx
    obtain ⟨p, _, rfl⟩ := List.mem_map.mp hx
    exact oscWave_bounds s.waveform p

/-- C1 witness: a sine oscillator with no pending modulation, 3 frames. -/
theorem C1_osc_block_amended_witness :
    (0 : ℕ) < 3 ∧
    (∃ out s2,
      oscProcess ⟨440, Waveform.sine, 44100, 0, none⟩ 3 = some (out, s2) ∧
      out.length = 3 ∧ ∀ x ∈ out, -1 ≤ x ∧ x ≤ 1) :=
  ⟨by decide,
   C1_osc_block_amended ⟨440, Waveform.sine, 44100, 0, none⟩ 3 (by decide)
     (Or.inl rfl) (Or.inl rfl)⟩

/-- C1 counterexample: with a pending modulation buffer of length 1 and
`frames = 2`, `process` returns a block of 1 sample, not `frames` — the
claim's "regardless of ... a buffer of any length" fails on the code. -/
theorem C1_counterexample :
    Option.elim (oscProcess ⟨440, Waveform.sine, 44100, 0, some [50]⟩ 2) 0
      (fun r => r.1.length) = 1 ∧ (1 : ℕ) ≠ 2 := by
  constructor
  · simp [oscProcess, oscSignal, oscPhases, oscIncs, oscFreqs, cumsum, cumsumAux]
  · decide

/-- C2 (confirmed).  With no modulation buffer pending, rendering `N`
frames in one `process` call produces exactly the concatenation of a
`k`-frame call followed by an `(N-k)`-frame call on the returned state: the
phase accumulator is carried (wrapped mod 2π, under which every waveform is
periodic), so there is no implicit phase reset between calls.  In the exact
real semantics the outputs are sample-identical. -/
theorem C2_phase_continuity (s : OscState) (hmod : s.freq_mod = none)
    (N k : ℕ) (hk0 : 0 < k) (hkN : k < N) :
    ∃ outN s1 out1 s2 out2 s3,
      oscProcess s N = some (outN, s1) ∧
      oscProcess s k = some (out1, s2) ∧
      oscProcess s2 (N - k) = some (out2, s3) ∧
      outN = out1 ++ out2 := by
  obtain ⟨m0, rfl⟩ := Nat.exists_eq_add_of_lt hkN
  have hNk : k + m0 + 1 - k = m0 + 1 := by omega
  have hN : 0 < k + m0 + 1 := by omega
  have hA := oscProcess_noMod s hmod hN
  have hB := oscProcess_noMod s hmod hk0
  set s2 : OscState :=
    { s with phase := pyMod (s.phase + (k : ℝ) * oscInc s) (2 * Real.pi) } with hs2
  have hmod2 : s2.freq_mod = none := hmod
  have hC := @oscProcess_noMod s2 hmod2 (m0 + 1) (by omega)
  have hinc : oscInc s2 = oscInc s := rfl
  have hwave : s2.waveform = s.waveform := rfl
  rw [hNk]
  refine ⟨_, _, _, _, _, _, hA, hB, hC, ?_⟩
  have hsplit : k + m0 + 1 = k + (m0 + 1) := by omega
  rw [hsplit, List.range_add, List.map_append, List.map_map]
  congr 1
  apply List.map_congr_left
  intro j _
  simp only [Function.comp_apply, hinc, hwave]
  have harg : s2.phase + ((j : ℝ) + 1) * oscInc s
      = (s.phase + (((k + j : ℕ) : ℝ) + 1) * oscInc s)
        + ((-⌊(s.phase + (k : ℝ) * oscInc s) / (2 * Real.pi)⌋ : ℤ) : ℝ)
          * (2 * Real.pi) := by
    rw [hs2]
    simp only [pyMod]
    push_cast
    ring
  rw [harg, oscWave_add_int_mul_two_pi]

/-- C2 witness: a concrete sawtooth oscillator, 2 frames split as 1 + 1. -/
theorem C2_phase_continuity_witness :
    (0 : ℕ) < 1 ∧ (1 : ℕ) < 2 ∧
    (∃ outN s1 out1 s2 out2 s3,
      oscProcess ⟨440, Waveform.saw, 44100, 0, none⟩ 2 = some (outN, s1) ∧
      oscProcess ⟨440, Waveform.saw, 44100, 0, none⟩ 1 = some (out1, s2) ∧
      oscProcess s2 (2 - 1) = some (out2, s3) ∧
      outN = out1 ++ out2) :=
  ⟨by decide, by decide,
   C2_phase_continuity ⟨440, Waveform.saw, 44100, 0, none⟩ rfl 2 1
     (by decide) (by decide)⟩

/-! ### SynthVCA (nodes.py lines 149-193) -/

/-- State of `SynthVCA`: the static base gain and the optional pending
gain-modulation buffer (`self._gain_mod`). -/
structure VCAState where
  base_gain : ℝ
  gain_mod : Option (List ℝ)

/-- `SynthVCA.accept_modulation`. -/
def vcaAcceptModulation (s : VCAState) (param : String) (buffer : List ℝ) :
    VCAState :=
  if param = "gain" then { s with gain_mod := some buffer } else s

/-- `SynthVCA.process`: with no input, zeros; with a pending modulation
buffer the gain array is `mod[:frames]` and `input * gain` follows numpy
1-d broadcasting (equal lengths, or one side of length 1; any other
mismatch raises ValueError, modelled as `none`); otherwise the scalar base
gain scales the input.  The state is never mutated. -/
def vcaProcess (s : VCAState) (input : Option (List ℝ)) (frames : ℕ) :
    Option (List ℝ × VCAState) :=
  match input with
  | none => some (List.replicate frames 0, s)
  | some inp =>
    match s.gain_mod with
    | some m =>
        let g := m.take frames
        if g.length = inp.length then
          some (List.zipWith (· * ·) inp g, s)
        else if g.length = 1 then
          some (inp.map (· * g.headD 0), s)
        else if inp.length = 1 then
          some (g.map (inp.headD 0 * ·), s)
        else none
    | none => some (inp.map (· * s.base_gain), s)

/-! ### SynthFilter (nodes.py lines 89-146) -/

/-- State of `SynthFilter`.  The second-order-section coefficients (`_sos`)
and carried filter state (`_zi`) come from the external numeric library
(`scipy.signal.butter` / `sosfilt_zi`), so they are abstract types `α` and
`β`; both are `None` until first designed and are always assigned together,
modelled as a single optional pair. -/
structure FilterState (α β : Type) where
  base_cutoff : ℝ
  sample_rate : ℝ
  cutoff_mod : Option (List ℝ)
  designed : Option (α × β)
  last_cutoff : Option ℝ

/-- `SynthFilter.accept_modulation`. -/
def filterAcceptModulation {α β : Type} (s : FilterState α β) (param : String)
    (buffer : List ℝ) : FilterState α β :=
  if param = "cutoff" then { s with cutoff_mod := some buffer } else s

section FilterDefs

open Classical

/-- The body of `SynthFilter.process` after the cutoff is chosen: redesign
the coefficients when none exist yet or the cutoff changed
(`self._sos is None or cutoff != self._last_cutoff`), then run the
streaming filter (`sosfilt`), carrying the returned state. -/
def filterRun {α β : Type} (design : ℝ → α × β)
    (sosfilt : α → List ℝ → β → List ℝ × β)
    (s : FilterState α β) (cutoff : ℝ) (inp : List ℝ) :
    Option (List ℝ × FilterState α β) :=
  if s.designed = none ∨ s.last_cutoff ≠ some cutoff then
    let d := design cutoff
    let r := sosfilt d.1 inp d.2
    some (r.1, { s with designed := some (d.1, r.2), last_cutoff := some cutoff })
  else
    match s.designed with
    | some d =>
        let r := sosfilt d.1 inp d.2
        some (r.1, { s with designed := some (d.1, r.2) })
    | none => none

/-- `SynthFilter.process`: with no input it returns zeros immediately and
touches nothing; with a pending cutoff-modulation buffer it reads only the
buffer's first element (`self._cutoff_mod[0]`, IndexError on an empty
buffer, modelled as `none`) clipped to `[50, 20000]`; otherwise the base
cutoff is used. -/
def filterProcess {α β : Type} (design : ℝ → α × β)
    (sosfilt : α → List ℝ → β → List ℝ × β)
    (s : FilterState α β) (input : Option (List ℝ)) (frames : ℕ) :
    Option (List ℝ × FilterState α β) :=
  match input with
  | none => some (List.replicate frames 0, s)
  | some inp =>
    match s.cutoff_mod with
    | some [] => none
    | some (c0 :: _) => filterRun design sosfilt s (npClip c0 50 20000) inp
    | none => filterRun design sosfilt s s.base_cutoff inp

end FilterDefs

/-- C10 (confirmed).  `SynthFilter.process(None, frames)` returns an
all-zero block of exactly `frames` samples and leaves the whole filter
state — coefficients, carried state, last-designed cutoff and pending
modulation buffer — unchanged. -/
theorem C10_filter_none_input {α β : Type} (design : ℝ → α × β)
    (sosfilt : α → List ℝ → β → List ℝ × β)
    (s : FilterState α β) (frames : ℕ) (hn : 0 < frames) :
    filterProcess design sosfilt s none frames
      = some (List.replicate frames 0, s) ∧
    (List.replicate (frames : ℕ) (0 : ℝ)).length = frames := by
  exact ⟨rfl, List.length_replicate frames 0⟩

/-- C10 witness: a concrete filter state, 4 frames. -/
theorem C10_filter_none_input_witness :
    (0 : ℕ) < 4 ∧
    (filterProcess (fun (_ : ℝ) => ((), ()))
        (fun (_ : Unit) (l : List ℝ) (_ : Unit) => (l, ()))
        ⟨1000, 44100, none, none, none⟩ none 4
      = some (List.replicate 4 0, ⟨1000, 44100, none, none, none⟩) ∧
     (List.replicate (4 : ℕ) (0 : ℝ)).length = 4) :=
  ⟨by decide,
   C10_filter_none_input (fun _ => ((), ())) (fun _ l _ => (l, ()))
     ⟨1000, 44100, none, none, none⟩ 4 (by decide)⟩

/-- C5 (code bug).  The spec defines a modulation buffer shorter than
`frameCount` as a valid edge case (prefix modulates, remainder uses the
base value, full-length block, no error).  The code does otherwise: the VCA
raises a broadcast ValueError (`input * gain` with shapes (4,) and (2,)),
and the oscillator returns a truncated block (1 sample instead of 2). -/
theorem C5_short_buffer_eval :
    vcaProcess ⟨1, some [2, 2]⟩ (some [1, 1, 1, 1]) 4 = none ∧
    Option.elim (oscProcess ⟨440, Waveform.sine, 44100, 0, some [100]⟩ 2) 0
      (fun r => r.1.length) = 1 := by
  constructor
  · simp [vcaProcess]
  · simp [oscProcess, oscSignal, oscPhases, oscIncs, oscFreqs, cumsum, cumsumAux]

/-- C6 (amended).  No signal module clears its pending-modulation buffer
during `process`: the buffer field persists, unchanged, across every
`process` call, until it is overwritten by another `accept_modulation` —
so a later call without fresh modulation reuses the stale buffer. -/
theorem C6_mod_buffer_persists :
    (∀ (s : OscState) (n : ℕ),
      Option.elim (oscProcess s n) True (fun r => r.2.freq_mod = s.freq_mod)) ∧
    (∀ (s : VCAState) (inp : Option (List ℝ)) (n : ℕ),
      Option.elim (vcaProcess s inp n) True (fun r => r.2 = s)) ∧
    (∀ (design : ℝ → Unit × Unit) (sosfilt : Unit → List ℝ → Unit → List ℝ × Unit)
       (s : FilterState Unit Unit) (inp : Option (List ℝ)) (n : ℕ),
      Option.elim (filterProcess design sosfilt s inp n) True
        (fun r => r.2.cutoff_mod = s.cutoff_mod)) := by
  refine ⟨?_, ?_, ?_⟩
  · intro s n
    rw [oscProcess]
    cases (oscPhases s n).getLast? with
    | none => trivial
    | some lp => rfl
  · intro s inp n
    rcases inp with _ | inp
    · rfl
    rcases hm : s.gain_mod with _ | m
    · simp [vcaProcess, hm]
    · rw [vcaProcess]
      simp only [hm]
      split
      · rfl
      split
      · rfl
      split
      · rfl
      trivial
  · intro design sosfilt s inp n
    have hrun : ∀ (cutoff : ℝ) (inp2 : List ℝ),
        Option.elim (filterRun design sosfilt s cutoff inp2) True
          (fun r => r.2.cutoff_mod = s.cutoff_mod) := by
      intro cutoff inp2
      rw [filterRun]
      split
      · rfl
      · split
        · rfl
        · trivial
    rcases inp with _ | inp
    · rfl
    rcases hm : s.cutoff_mod with _ | ⟨_ | ⟨c0, rest⟩⟩
    · simpa only [filterProcess, hm] using hrun s.base_cutoff inp
    · simp only [filterProcess]
      rw [hm]
      trivial
    · have := hrun (npClip c0 50 20000) inp
      simp only [filterProcess]
      rw [hm]
      simpa only [hm] using this

/-- C6 counterexample: a VCA whose gain buffer `[2,2]` was installed once.
`process` leaves the state (including the buffer) unchanged, so a second
`process` call with no fresh `accept_modulation` again multiplies by the
stale buffer, producing `[2,2]` — not the base-gain result `[1,1]` the
claim predicts. -/
theorem C6_counterexample :
    vcaProcess ⟨1, some [2, 2]⟩ (some [1, 1]) 2
      = some ([2, 2], ⟨1, some [2, 2]⟩) ∧
    vcaProcess ⟨1, none⟩ (some [1, 1]) 2 = some ([1, 1], ⟨1, none⟩) ∧
    ([2, 2] : List ℝ) ≠ [1, 1] := by
  refine ⟨?_, ?_, ?_⟩
  · norm_num [vcaProcess]
  · norm_num [vcaProcess]
  · intro h
    have := List.head_eq_of_cons_eq h
    norm_num at this

/-! ### SynthADSR (modulators.py lines 55-149) -/

/-- The envelope state machine's stage (`self.env_phase`). -/
inductive EnvPhase
  | off
  | attack
  | decay
  | sustain
  | release
deriving DecidableEq

/-- State of `SynthADSR`: the four stage durations (seconds), the sample
rate, the current stage, the stored level and the `active` flag.  The
routing-target list only redistributes the returned block and is omitted. -/
structure ADSRState where
  attack : ℝ
  decay : ℝ
  sustain : ℝ
  release : ℝ
  sample_rate : ℝ
  env_phase : EnvPhase
  env_level : ℝ
  active : Bool

/-- `SynthADSR.trigger_on`: restart the attack from level 0. -/
def adsrTriggerOn (s : ADSRState) : ADSRState :=
  { s with env_phase := EnvPhase.attack, env_level := 0, active := true }

/-- `SynthADSR.trigger_off`: enter release from any stage but `off`. -/
def adsrTriggerOff (s : ADSRState) : ADSRState :=
  if s.env_phase = EnvPhase.off then s
  else { s with env_phase := EnvPhase.release }

/-- A stage duration in samples: `max(int(x * sr), 1)`. -/
def adsrDur (x sr : ℝ) : ℕ := max ⌊x * sr⌋₊ 1

/-- The loop-carried part of the envelope state: stage, level, `active`. -/
structure EnvSnap where
  phase : EnvPhase
  level : ℝ
  activeFlag : Bool

section ADSRDefs

open Classical

/-- The `while i < frames` loop of `SynthADSR.render`.  Each iteration
renders one stage segment `env = clip(level ± step*arange(n), ...)` of
`n = min(dur, remaining)` samples, sets `level = env[-1]`, performs the
stage transition, and continues with the remaining frames; `sustain` and
`off` fill all remaining frames and break.  Since `dur ≥ 1`, every
iteration consumes at least one frame, so `frames` units of fuel always
suffice (the fuel-exhausted case is unreachable from `adsrRender`). -/
def adsrLoop (A D S R sr : ℝ) :
    ℕ → EnvPhase → ℝ → Bool → ℕ → List ℝ × EnvSnap
  | 0, ph, lv, ac, _ => ([], ⟨ph, lv, ac⟩)
  | fuel + 1, ph, lv, ac, remaining =>
    if remaining = 0 then ([], ⟨ph, lv, ac⟩) else
    match ph with
    | EnvPhase.attack =>
        let dur := adsrDur A sr
        let step := 1 / (dur : ℝ)
        let n := min dur remaining
        let env := (List.range n).map (fun (j : ℕ) => npClip (lv + step * j) 0 1)
        let lv2 := env.getLastD lv
        if 1 ≤ lv2 then
          let rest := adsrLoop A D S R sr fuel EnvPhase.decay 1 ac (remaining - n)
          (env ++ rest.1, rest.2)
        else
          let rest := adsrLoop A D S R sr fuel EnvPhase.attack lv2 ac (remaining - n)
          (env ++ rest.1, rest.2)
    | EnvPhase.decay =>
        let dur := adsrDur D sr
        let step := (1 - S) / (dur : ℝ)
        let n := min dur remaining
        let env := (List.range n).map (fun (j : ℕ) => npClip (lv - step * j) S 1)
        let lv2 := env.getLastD lv
        if lv2 ≤ S then
          let rest := adsrLoop A D S R sr fuel EnvPhase.sustain S ac (remaining - n)
          (env ++ rest.1, rest.2)
        else
          let rest := adsrLoop A D S R sr fuel EnvPhase.decay lv2 ac (remaining - n)
          (env ++ rest.1, rest.2)
    | EnvPhase.sustain => (List.replicate remaining S, ⟨EnvPhase.sustain, S, ac⟩)
    | EnvPhase.release =>
        let dur := adsrDur R sr
        let step := lv / (dur : ℝ)
        let n := min dur remaining
        let env := (List.range n).map (fun (j : ℕ) => npClip (lv - step * j) 0 1)
        let lv2 := env.getLastD lv
        if lv2 ≤ 0.001 then
          let rest := adsrLoop A D S R sr fuel EnvPhase.off 0 false (remaining - n)
          (env ++ rest.1, rest.2)
        else
          let rest := adsrLoop A D S R sr fuel EnvPhase.release lv2 ac (remaining - n)
          (env ++ rest.1, rest.2)
    | EnvPhase.off => (List.replicate remaining 0, ⟨EnvPhase.off, lv, ac⟩)

end ADSRDefs

/-- `SynthADSR.render`: run the stage loop over `frames` frames and store
the resulting stage, level and `active` flag back into the envelope. -/
def adsrRender (s : ADSRState) (frames : ℕ) : List ℝ × ADSRState :=
  let r := adsrLoop s.attack s.decay s.sustain s.release s.sample_rate frames
             s.env_phase s.env_level s.active frames
  (r.1, { s with env_phase := r.2.phase, env_level := r.2.level,
                 active := r.2.activeFlag })

lemma adsrLoop_rem_zero (A D S R sr : ℝ) (fuel : ℕ) (ph : EnvPhase) (lv : ℝ)
    (ac : Bool) : adsrLoop A D S R sr fuel ph lv ac 0 = ([], ⟨ph, lv, ac⟩) := by
  cases fuel with
  | zero => rfl
  | succ f => simp [adsrLoop]

lemma adsrDur_pos (x sr : ℝ) : 1 ≤ adsrDur x sr := le_max_right _ _

/-- One full attack segment from level 0 over exactly `dur` frames: every
sample stays strictly below 1, so the stage does not advance and the level
ends at `(dur - 1)/dur`. -/
lemma adsrLoop_attack_exact (A D S R sr : ℝ) (ac : Bool) (fuel : ℕ)
    (hfuel : 1 ≤ fuel) :
    adsrLoop A D S R sr fuel EnvPhase.attack 0 ac (adsrDur A sr)
      = ((List.range (adsrDur A sr)).map
           (fun (j : ℕ) => npClip (0 + 1 / (adsrDur A sr : ℝ) * j) 0 1),
         ⟨EnvPhase.attack,
          ((adsrDur A sr : ℝ) - 1) / (adsrDur A sr : ℝ), ac⟩) := by
  obtain ⟨f, rfl⟩ : ∃ f, fuel = f + 1 := ⟨fuel - 1, by omega⟩
  have hd1 : 1 ≤ adsrDur A sr := adsrDur_pos A sr
  have hdR : (1 : ℝ) ≤ (adsrDur A sr : ℝ) := by exact_mod_cast hd1
  have hdpos : (0 : ℝ) < (adsrDur A sr : ℝ) := by linarith
  have hlv2 : ((List.range (adsrDur A sr)).map
      (fun (j : ℕ) => npClip (0 + 1 / (adsrDur A sr : ℝ) * j) 0 1)).getLastD 0
      = ((adsrDur A sr : ℝ) - 1) / (adsrDur A sr : ℝ) := by
    rw [getLastD_range_map _ (by omega : 0 < adsrDur A sr)]
    have hc : ((adsrDur A sr - 1 : ℕ) : ℝ) = (adsrDur A sr : ℝ) - 1 := by
      push_cast [hd1]; ring
    rw [hc]
    have hval : (0 : ℝ) + 1 / (adsrDur A sr : ℝ) * ((adsrDur A sr : ℝ) - 1)
        = ((adsrDur A sr : ℝ) - 1) / (adsrDur A sr : ℝ) := by
      field_simp
    rw [hval]
    exact npClip_eq_self (div_nonneg (by linarith) hdpos.le)
      (by rw [div_le_one hdpos]; linarith)
  have hlt1 : ((adsrDur A sr : ℝ) - 1) / (adsrDur A sr : ℝ) < 1 := by
    rw [div_lt_one hdpos]; linarith
  simp only [adsrLoop]
  rw [if_neg (by omega : ¬(adsrDur A sr = 0))]
  simp only [min_self, hlv2]
  rw [if_neg (by linarith : ¬(1 : ℝ) ≤ ((adsrDur A sr : ℝ) - 1) / (adsrDur A sr : ℝ))]
  rw [Nat.sub_self, adsrLoop_rem_zero, List.append_nil]

/-- One full release segment from level `lv` over exactly `dur` frames:
the level ends at `lv/dur`, and when that is below the 0.001 epsilon the
stage snaps to `off` with level 0 and `active = false`. -/
lemma adsrLoop_release_exact (A D S R sr : ℝ) (ac : Bool) (lv : ℝ) (fuel : ℕ)
    (hfuel : 1 ≤ fuel) (h0 : 0 ≤ lv) (h1 : lv ≤ 1)
    (hc : lv ≤ 0.001 * (adsrDur R sr : ℝ)) :
    adsrLoop A D S R sr fuel EnvPhase.release lv ac (adsrDur R sr)
      = ((List.range (adsrDur R sr)).map
           (fun (j : ℕ) => npClip (lv - lv / (adsrDur R sr : ℝ) * j) 0 1),
         ⟨EnvPhase.off, 0, false⟩) := by
  obtain ⟨f, rfl⟩ : ∃ f, fuel = f + 1 := ⟨fuel - 1, by omega⟩
  have hd1 : 1 ≤ adsrDur R sr := adsrDur_pos R sr
  have hdR : (1 : ℝ) ≤ (adsrDur R sr : ℝ) := by exact_mod_cast hd1
  have hdpos : (0 : ℝ) < (adsrDur R sr : ℝ) := by linarith
  have hlv2 : ((List.range (adsrDur R sr)).map
      (fun (j : ℕ) => npClip (lv - lv / (adsrDur R sr : ℝ) * j) 0 1)).getLastD lv
      = lv / (adsrDur R sr : ℝ) := by
    rw [getLastD_range_map _ (by omega : 0 < adsrDur R sr)]
    have hc2 : ((adsrDur R sr - 1 : ℕ) : ℝ) = (adsrDur R sr : ℝ) - 1 := by
      push_cast [hd1]; ring
    rw [hc2]
    have hval : lv - lv / (adsrDur R sr : ℝ) * ((adsrDur R sr : ℝ) - 1)
        = lv / (adsrDur R sr : ℝ) := by
      field_simp
      ring
    rw [hval]
    exact npClip_eq_self (div_nonneg h0 hdpos.le)
      (by
        calc lv / (adsrDur R sr : ℝ) ≤ lv := by
              apply div_le_self h0 hdR
          _ ≤ 1 := h1)
  have heps : lv / (adsrDur R sr : ℝ) ≤ 0.001 := by
    rw [div_le_iff₀ hdpos]
    linarith
  simp only [adsrLoop]
  rw [if_neg (by omega : ¬(adsrDur R sr = 0))]
  simp only [min_self, hlv2]
  rw [if_pos heps]
  rw [Nat.sub_self, adsrLoop_rem_zero, List.append_nil]

/-- After `trigger_on`, rendering exactly `dur` attack frames leaves the
stage at `attack` with level `(dur-1)/dur`. -/
lemma adsr_attack_pass (s : ADSRState) :
    (adsrRender (adsrTriggerOn s) (adsrDur s.attack s.sample_rate)).2.env_phase
        = EnvPhase.attack ∧
    (adsrRender (adsrTriggerOn s) (adsrDur s.attack s.sample_rate)).2.env_level
        = ((adsrDur s.attack s.sample_rate : ℝ) - 1)
            / (adsrDur s.attack s.sample_rate : ℝ) := by
  have h := adsrLoop_attack_exact s.attack s.decay s.sustain s.release
    s.sample_rate true (adsrDur s.attack s.sample_rate)
    (adsrDur_pos s.attack s.sample_rate)
  constructor <;>
    simp only [adsrRender, adsrTriggerOn, h]

/-- C3 (amended).  From `off`, `trigger_on` followed by rendering
`dur = max(int(attack*sr), 1)` frames brings the stored level only to
`(dur-1)/dur = 1 - 1/dur` (within `1/dur` of 1.0, not exactly 1.0) and the
stage is still `attack`, not `decay` (the transition fires only once the
level reaches 1.0, two frames later).  `trigger_off` during `sustain`
followed by rendering `max(int(release*sr), 1)` frames brings the level to
0.0 and `active` to `false`, provided the sustain level is within the
0.001 release epsilon after one pass, i.e. `sustain ≤ 0.001·dur`. -/
theorem C3_envelope_amended (s t : ADSRState)
    (hph : t.env_phase = EnvPhase.sustain)
    (hlv : t.env_level = t.sustain)
    (h0 : 0 ≤ t.sustain) (h1 : t.sustain ≤ 1)
    (hc : t.sustain ≤ 0.001 * (adsrDur t.release t.sample_rate : ℝ)) :
    ((adsrRender (adsrTriggerOn s) (adsrDur s.attack s.sample_rate)).2.env_phase
        = EnvPhase.attack ∧
     (adsrRender (adsrTriggerOn s) (adsrDur s.attack s.sample_rate)).2.env_level
        = ((adsrDur s.attack s.sample_rate : ℝ) - 1)
            / (adsrDur s.attack s.sample_rate : ℝ)) ∧
    ((adsrRender (adsrTriggerOff t) (adsrDur t.release t.sample_rate)).2.env_level
        = 0 ∧
     (adsrRender (adsrTriggerOff t) (adsrDur t.release t.sample_rate)).2.active
        = false) := by
  refine ⟨adsr_attack_pass s, ?_⟩
  have hoff : adsrTriggerOff t = { t with env_phase := EnvPhase.release } := by
    rw [adsrTriggerOff, if_neg]
    rw [hph]
    exact fun hcon => EnvPhase.noConfusion hcon
  have h := adsrLoop_release_exact t.attack t.decay t.sustain t.release
    t.sample_rate t.active t.sustain
    (adsrDur t.release t.sample_rate)
    (adsrDur_pos t.release t.sample_rate) h0 h1 hc
  constructor <;>
    simp only [adsrRender, hoff, hlv, h]

/-- C3 witness: attack = 1s at 1 Hz sample rate (dur = 1), and an envelope
sustaining at 0.001 with release = 1s at 1 Hz (dur = 1, epsilon met). -/
theorem C3_envelope_amended_witness :
    ((⟨1, 1, 0.001, 1, 1, EnvPhase.sustain, 0.001, true⟩ : ADSRState).env_phase
        = EnvPhase.sustain) ∧
    ((⟨1, 1, 0.001, 1, 1, EnvPhase.sustain, 0.001, true⟩ : ADSRState).env_level
        = (0.001 : ℝ)) ∧
    (((adsrRender (adsrTriggerOn ⟨1, 1, 0.001, 1, 1, EnvPhase.sustain, 0.001, true⟩)
        (adsrDur (1 : ℝ) 1)).2.env_phase = EnvPhase.attack ∧
      (adsrRender (adsrTriggerOn ⟨1, 1, 0.001, 1, 1, EnvPhase.sustain, 0.001, true⟩)
        (adsrDur (1 : ℝ) 1)).2.env_level
        = ((adsrDur (1 : ℝ) 1 : ℝ) - 1) / (adsrDur (1 : ℝ) 1 : ℝ)) ∧
     ((adsrRender (adsrTriggerOff ⟨1, 1, 0.001, 1, 1, EnvPhase.sustain, 0.001, true⟩)
        (adsrDur (1 : ℝ) 1)).2.env_level = 0 ∧
      (adsrRender (adsrTriggerOff ⟨1, 1, 0.001, 1, 1, EnvPhase.sustain, 0.001, true⟩)
        (adsrDur (1 : ℝ) 1)).2.active = false)) := by
  have hdur : adsrDur (1 : ℝ) 1 = 1 := by
    rw [adsrDur]
    norm_num
  refine ⟨rfl, rfl, ?_⟩
  exact C3_envelope_amended
    ⟨1, 1, 0.001, 1, 1, EnvPhase.sustain, 0.001, true⟩
    ⟨1, 1, 0.001, 1, 1, EnvPhase.sustain, 0.001, true⟩
    rfl rfl (by norm_num) (by norm_num) (by rw [hdur]; norm_num)

/-- C3 counterexample: attack = 2s at 10 Hz sample rate, so
`dur = attack·sr = 20`.  After `trigger_on` and rendering 20 frames the
stage is still `attack` (not `decay`) and the level is 19/20, not 1.0. -/
theorem C3_counterexample :
    (adsrRender (adsrTriggerOn ⟨2, 0.1, 0.7, 0.3, 10, EnvPhase.off, 0, false⟩)
        20).2.env_phase = EnvPhase.attack ∧
    EnvPhase.attack ≠ EnvPhase.decay ∧
    (adsrRender (adsrTriggerOn ⟨2, 0.1, 0.7, 0.3, 10, EnvPhase.off, 0, false⟩)
        20).2.env_level = 19 / 20 ∧
    (19 / 20 : ℝ) ≠ 1 := by
  have hdur : adsrDur (2 : ℝ) 10 = 20 := by
    rw [adsrDur]
    norm_num
  have h := adsr_attack_pass ⟨2, 0.1, 0.7, 0.3, 10, EnvPhase.off, 0, false⟩
  dsimp only at h
  rw [hdur] at h
  refine ⟨h.1, by decide, ?_, by norm_num⟩
  rw [h.2]
  norm_num

/-- Two attack iterations of the render loop with `dur + 2` frames: the
first segment of `dur` frames ends just below 1, the second segment's
second sample reaches exactly 1, so the stage flips to `decay` with level
1.0 inside the same call. -/
lemma adsrLoop_attack_reach_decay (A D S R sr : ℝ) (ac : Bool)
    (h2 : 2 ≤ adsrDur A sr) :
    (adsrLoop A D S R sr (adsrDur A sr + 2) EnvPhase.attack 0 ac
        (adsrDur A sr + 2)).2 = ⟨EnvPhase.decay, 1, ac⟩ := by
  have hd1 : 1 ≤ adsrDur A sr := adsrDur_pos A sr
  have hdR : (1 : ℝ) ≤ (adsrDur A sr : ℝ) := by exact_mod_cast hd1
  have hdpos : (0 : ℝ) < (adsrDur A sr : ℝ) := by linarith
  have hdne : (adsrDur A sr : ℝ) ≠ 0 := hdpos.ne'
  -- level at the end of the first dur-frame segment
  have hlv2 : ((List.range (min (adsrDur A sr) (adsrDur A sr + 2))).map
      (fun (j : ℕ) => npClip (0 + 1 / (adsrDur A sr : ℝ) * j) 0 1)).getLastD 0
      = ((adsrDur A sr : ℝ) - 1) / (adsrDur A sr : ℝ) := by
    rw [min_eq_left (by omega), getLastD_range_map _ (by omega : 0 < adsrDur A sr)]
    have hc : ((adsrDur A sr - 1 : ℕ) : ℝ) = (adsrDur A sr : ℝ) - 1 := by
      push_cast [hd1]; ring
    rw [hc]
    have hval : (0 : ℝ) + 1 / (adsrDur A sr : ℝ) * ((adsrDur A sr : ℝ) - 1)
        = ((adsrDur A sr : ℝ) - 1) / (adsrDur A sr : ℝ) := by
      field_simp
    rw [hval]
    exact npClip_eq_self (div_nonneg (by linarith) hdpos.le)
      (by rw [div_le_one hdpos]; linarith)
  have hlt1 : ((adsrDur A sr : ℝ) - 1) / (adsrDur A sr : ℝ) < 1 := by
    rw [div_lt_one hdpos]; linarith
  -- level at the end of the second, 2-frame segment: exactly 1
  have hlv3 : ((List.range (min (adsrDur A sr) 2)).map
      (fun (j : ℕ) => npClip
        (((adsrDur A sr : ℝ) - 1) / (adsrDur A sr : ℝ)
          + 1 / (adsrDur A sr : ℝ) * j) 0 1)).getLastD
      (((adsrDur A sr : ℝ) - 1) / (adsrDur A sr : ℝ)) = 1 := by
    rw [min_eq_right h2, getLastD_range_map _ (by omega : (0 : ℕ) < 2)]
    have hval : ((adsrDur A sr : ℝ) - 1) / (adsrDur A sr : ℝ)
        + 1 / (adsrDur A sr : ℝ) * ((2 - 1 : ℕ) : ℝ) = 1 := by
      push_cast
      field_simp
    rw [hval]
    exact npClip_eq_self zero_le_one le_rfl
  conv_lhs =>
    rw [show adsrDur A sr + 2 = (adsrDur A sr + 1) + 1 by omega]
    rw [adsrLoop]
  rw [if_neg (by omega : ¬(adsrDur A sr + 2 = 0))]
  simp only [hlv2]
  rw [if_neg (by linarith :
    ¬(1 : ℝ) ≤ ((adsrDur A sr : ℝ) - 1) / (adsrDur A sr : ℝ))]
  have hrem : adsrDur A sr + 2 - min (adsrDur A sr) (adsrDur A sr + 2) = 2 := by
    omega
  rw [hrem]
  rw [show adsrDur A sr + 1 = adsrDur A sr + 1 from rfl, adsrLoop]
  rw [if_neg (by omega : ¬(2 = 0))]
  simp only [hlv3]
  rw [if_pos le_rfl]
  have hrem2 : 2 - min (adsrDur A sr) 2 = 0 := by omega
  rw [hrem2, adsrLoop_rem_zero]

/-- C4 (amended).  `trigger_on` resets the level to 0 — the attack ramp
restarts from 0, not from the level current at the moment of the trigger —
and enters `attack`.  With `dur = max(int(attack*sr), 1) ≥ 2`, a single
render call of `dur + 2` frames raises the level to exactly 1.0, clamps
it, and transitions to `decay` within that same call. -/
theorem C4_attack_amended (s : ADSRState)
    (h2 : 2 ≤ adsrDur s.attack s.sample_rate) :
    (adsrTriggerOn s).env_level = 0 ∧
    (adsrTriggerOn s).env_phase = EnvPhase.attack ∧
    (adsrTriggerOn s).active = true ∧
    (adsrRender (adsrTriggerOn s)
        (adsrDur s.attack s.sample_rate + 2)).2.env_phase = EnvPhase.decay ∧
    (adsrRender (adsrTriggerOn s)
        (adsrDur s.attack s.sample_rate + 2)).2.env_level = 1 := by
  have h := adsrLoop_attack_reach_decay s.attack s.decay s.sustain s.release
    s.sample_rate true h2
  refine ⟨rfl, rfl, rfl, ?_, ?_⟩ <;>
    simp only [adsrRender, adsrTriggerOn, h]

/-- C4 witness: attack = 2s at 1 Hz sample rate, so `dur = 2`. -/
theorem C4_attack_amended_witness :
    (2 ≤ adsrDur (2 : ℝ) 1) ∧
    ((adsrTriggerOn ⟨2, 1, 0.5, 1, 1, EnvPhase.off, 0, false⟩).env_level = 0 ∧
     (adsrTriggerOn ⟨2, 1, 0.5, 1, 1, EnvPhase.off, 0, false⟩).env_phase
        = EnvPhase.attack ∧
     (adsrTriggerOn ⟨2, 1, 0.5, 1, 1, EnvPhase.off, 0, false⟩).active = true ∧
     (adsrRender (adsrTriggerOn ⟨2, 1, 0.5, 1, 1, EnvPhase.off, 0, false⟩)
        (adsrDur (2 : ℝ) 1 + 2)).2.env_phase = EnvPhase.decay ∧
     (adsrRender (adsrTriggerOn ⟨2, 1, 0.5, 1, 1, EnvPhase.off, 0, false⟩)
        (adsrDur (2 : ℝ) 1 + 2)).2.env_level = 1) := by
  have hdur : 2 ≤ adsrDur (2 : ℝ) 1 := by
    rw [adsrDur]
    norm_num
  exact ⟨hdur,
    C4_attack_amended ⟨2, 1, 0.5, 1, 1, EnvPhase.off, 0, false⟩ hdur⟩

/-- C4 counterexample: an envelope currently in `decay` at level 0.5.
`trigger_on` discards the current level (0.5) and resets it to 0, and the
first rendered attack sample is 0, not 0.5 — the ramp does not start "from
the level current at the moment of trigger_on". -/
theorem C4_counterexample :
    (adsrTriggerOn
      ⟨0.5, 0.1, 0.2, 0.3, 10, EnvPhase.decay, 0.5, true⟩).env_level = 0 ∧
    (⟨0.5, 0.1, 0.2, 0.3, 10, EnvPhase.decay, 0.5, true⟩ :
        ADSRState).env_level = 0.5 ∧
    ((0 : ℝ) ≠ 0.5) ∧
    (adsrRender (adsrTriggerOn
      ⟨0.5, 0.1, 0.2, 0.3, 10, EnvPhase.decay, 0.5, true⟩) 1).1 = [0] := by
  refine ⟨rfl, rfl, by norm_num, ?_⟩
  have h1d : 1 ≤ adsrDur (0.5 : ℝ) 10 := adsrDur_pos _ _
  have hmin : min (adsrDur (0.5 : ℝ) 10) 1 = 1 := min_eq_right h1d
  have hclip : npClip ((0 : ℝ) + 1 / (adsrDur (0.5 : ℝ) 10 : ℝ) * ((0 : ℕ) : ℝ))
      0 1 = 0 := by
    rw [Nat.cast_zero, mul_zero, add_zero]
    exact npClip_eq_self le_rfl zero_le_one
  have henv : (List.range 1).map
      (fun (j : ℕ) => npClip ((0 : ℝ) + 1 / (adsrDur (0.5 : ℝ) 10 : ℝ) * j) 0 1)
      = [0] := by
    rw [show List.range 1 = [0] from rfl, List.map_cons, List.map_nil, hclip]
  simp only [adsrRender, adsrTriggerOn, adsrLoop]
  rw [if_neg (by omega : ¬(1 = 0))]
  simp only [hmin, henv]
  rw [if_neg (by norm_num :
    ¬(1 : ℝ) ≤ ([(0 : ℝ)].getLastD 0))]
  simp

/-! ### Mixer (voice.py lines 118-211)

Child voices are abstracted by a type `V` with a pure render function
`renderV : V → frames → (block, new state)` (Python mutates the voice
object in place; here the post-render state is returned) and the
post-render `active` flag `activeV`. -/

/-- State of `Mixer`: the child-voice list and the output gain. -/
structure MixerState (V : Type) where
  voices : List V
  gain : ℝ

/-- The `for voice in self.voices` loop of `Mixer.render`: every child is
rendered; a child whose `active` flag is true after its render has its
block added into the running mix (`mix += signal`, numpy broadcasting),
is counted, and is kept in `surviving`; an inactive child is rendered but
dropped. -/
def mixerLoop {V : Type} (renderV : V → ℕ → List ℝ × V) (activeV : V → Bool)
    (frames : ℕ) :
    List V → List ℝ → ℕ → List V → Option (List ℝ × ℕ × List V)
  | [], mix, count, surviving => some (mix, count, surviving)
  | v :: rest, mix, count, surviving =>
    let r := renderV v frames
    if activeV r.2 then
      match npAdd mix r.1 with
      | some mix2 =>
          mixerLoop renderV activeV frames rest mix2 (count + 1)
            (surviving ++ [r.2])
      | none => none
    else
      mixerLoop renderV activeV frames rest mix count surviving

/-- `Mixer.render`: run the child loop over a zero mix, replace the child
list with the surviving children, and scale the mix by
`gain / activeCount` when the active count is positive (silence passes
through unscaled when it is zero). -/
def mixerRender {V : Type} (renderV : V → ℕ → List ℝ × V) (activeV : V → Bool)
    (m : MixerState V) (frames : ℕ) : Option (List ℝ × MixerState V) :=
  match mixerLoop renderV activeV frames m.voices (List.replicate frames 0) 0 [] with
  | none => none
  | some (mix, count, surviving) =>
      some ((if 0 < count then mix.map (fun x => x * (m.gain / (count : ℝ)))
             else mix),
            { voices := surviving, gain := m.gain })

lemma zipWith_add_replicate (n : ℕ) (a b : ℝ) :
    List.zipWith (· + ·) (List.replicate n a) (List.replicate n b)
      = List.replicate n (a + b) := by
  induction n with
  | zero => rfl
  | succ m ih => simp [List.replicate_succ, ih]

lemma mixerLoop_all_inactive {V : Type} (renderV : V → ℕ → List ℝ × V)
    (activeV : V → Bool) (frames : ℕ) (vs : List V)
    (hall : ∀ v ∈ vs, activeV ((renderV v frames).2) = false) :
    ∀ (mix : List ℝ) (count : ℕ) (surviving : List V),
      mixerLoop renderV activeV frames vs mix count surviving
        = some (mix, count, surviving) := by
  induction vs with
  | nil => intro mix count surviving; rfl
  | cons v rest ih =>
      intro mix count surviving
      have hv : activeV ((renderV v frames).2) = false :=
        hall v (List.mem_cons_self v rest)
      rw [mixerLoop]
      simp only [hv, Bool.false_eq_true, if_false]
      exact ih (fun w hw => hall w (List.mem_cons_of_mem v hw)) mix count surviving

/-- C7 (confirmed).  `Mixer.render` renders every current child.  With
`gain = 1.0` and a single child that stays active and produces a constant
block of value `c`, the output block is constant `c` (the `gain/1` scaling
is the identity) and the child survives.  With children that are all
inactive after their render, the output is silence, unscaled, and all
children are pruned. -/
theorem C7_mixer_normalization {V : Type} (renderV : V → ℕ → List ℝ × V)
    (activeV : V → Bool) (frames : ℕ) (c : ℝ) (v v2 : V) (ws : List V) (g : ℝ)
    (h1 : renderV v frames = (List.replicate frames c, v2))
    (h2 : activeV v2 = true)
    (h3 : ∀ w ∈ ws, activeV ((renderV w frames).2) = false) :
    mixerRender renderV activeV ⟨[v], 1⟩ frames
      = some (List.replicate frames c, ⟨[v2], 1⟩) ∧
    mixerRender renderV activeV ⟨ws, g⟩ frames
      = some (List.replicate frames 0, ⟨[], g⟩) := by
  constructor
  · have hloop : mixerLoop renderV activeV frames [v]
        (List.replicate frames 0) 0 []
        = some (List.replicate frames c, 1, [v2]) := by
      rw [mixerLoop]
      simp only [h1, h2, if_true]
      have hadd : npAdd (List.replicate frames 0) (List.replicate frames c)
          = some (List.replicate frames c) := by
        rw [npAdd, if_pos (by simp), zipWith_add_replicate]
        simp
      rw [hadd]
      rfl
    rw [mixerRender, hloop]
    simp only [Nat.lt_irrefl, Nat.zero_lt_one, if_true]
    have hscale : (List.replicate frames c).map
        (fun x => x * ((1 : ℝ) / ((1 : ℕ) : ℝ))) = List.replicate frames c := by
      rw [List.map_replicate]
      norm_num
    rw [hscale]
  · rw [mixerRender, mixerLoop_all_inactive renderV activeV frames ws h3]
    simp

/-- C7 witness: a single always-active `Unit` voice producing the constant
block 5, and an empty pruned-children case. -/
theorem C7_mixer_normalization_witness :
    ((fun (_ : Unit) (n : ℕ) => (List.replicate n (5 : ℝ), ())) () 3
        = (List.replicate 3 (5 : ℝ), ())) ∧
    ((fun (_ : Unit) => true) () = true) ∧
    (mixerRender (fun (_ : Unit) (n : ℕ) => (List.replicate n (5 : ℝ), ()))
        (fun _ => true) ⟨[()], 1⟩ 3
      = some (List.replicate 3 (5 : ℝ), ⟨[()], 1⟩) ∧
     mixerRender (fun (_ : Unit) (n : ℕ) => (List.replicate n (5 : ℝ), ()))
        (fun _ => true) ⟨[], 2⟩ 3
      = some (List.replicate 3 0, ⟨[], 2⟩)) :=
  ⟨rfl, rfl,
   C7_mixer_normalization (fun (_ : Unit) (n : ℕ) => (List.replicate n (5 : ℝ), ()))
     (fun _ => true) 3 5 () () [] 2 rfl rfl (by intro w hw; cases hw)⟩

/-! ### SynthEngine registry and keymap (engine.py lines 24-68)

Python dicts are modelled as insertion-ordered association lists without
duplicate keys: assigning to an existing key updates it in place,
otherwise the pair is appended. -/

/-- `d[k] = v` on a Python dict. -/
def dictSet {K V : Type} [DecidableEq K] (m : List (K × V)) (k : K) (v : V) :
    List (K × V) :=
  if k ∈ m.map Prod.fst then
    m.map (fun e => if e.1 = k then (k, v) else e)
  else m ++ [(k, v)]

/-- The engine state relevant to voice management: the voice registry
(`self.voices`) and the key-to-identifier map (`self.keymap`). -/
structure EngineState (V : Type) where
  voices : List (String × V)
  keymap : List (String × String)
deriving DecidableEq

/-- The keymap half of `add_voice`: `if key: self.keymap[key.lower()] = id`
(Python truthiness: `None` and the empty string are falsy). -/
def addKey (km : List (String × String)) (id : String) :
    Option String → List (String × String)
  | some kk => if kk = "" then km else dictSet km kk.toLower id
  | none => km

/-- `SynthEngine.add_voice(voice, id, key=None)`: register the voice under
`id`; when a truthy key is given, map `key.lower()` to `id`. -/
def addVoice {V : Type} (st : EngineState V) (voice : V) (id : String)
    (key : Option String) : EngineState V :=
  { st with
    voices := dictSet st.voices id voice,
    keymap := addKey st.keymap id key }

/-- `SynthEngine.remove_voice(id)`: delete every keymap entry whose value
is `id`, then delete the registry entry if present. -/
def removeVoice {V : Type} (st : EngineState V) (id : String) : EngineState V :=
  { st with
    keymap := st.keymap.filter (fun e => e.2 ≠ id),
    voices :=
      if id ∈ st.voices.map Prod.fst then
        st.voices.filter (fun e => e.1 ≠ id)
      else st.voices }

lemma filter_ne_snd_eq_self {V : Type} (m : List (String × V)) (id : V)
    [DecidableEq V] (h : ∀ e ∈ m, e.2 ≠ id) :
    m.filter (fun e => e.2 ≠ id) = m := by
  apply List.filter_eq_self.mpr
  intro e he
  simpa using h e he

/-- C9 (amended).  Removing an id that is absent from the registry — and,
as the data-model invariant guarantees, not the target of any keymap
entry — is a no-op, twice in a row.  `add_voice(v, id, key)` immediately
followed by `remove_voice(id)` restores the engine state exactly,
provided `id` was not already registered, no keymap entry already mapped
to `id`, and the (lowercased) key was not already bound in the keymap
(otherwise the pre-existing binding is destroyed, see the
counterexample). -/
theorem C9_remove_voice_amended {V : Type} (st : EngineState V) (v : V)
    (id : String) (key : Option String)
    (h1 : ∀ e ∈ st.voices, e.1 ≠ id)
    (h2 : ∀ e ∈ st.keymap, e.2 ≠ id)
    (h3 : ∀ kk, key = some kk → ∀ e ∈ st.keymap, e.1 ≠ kk.toLower) :
    removeVoice st id = st ∧
    removeVoice (removeVoice st id) id = st ∧
    removeVoice (addVoice st v id key) id = st := by
  have hnoopKey : st.keymap.filter (fun e => e.2 ≠ id) = st.keymap := by
    apply List.filter_eq_self.mpr
    intro e he
    simpa using h2 e he
  have hnotMem : id ∉ st.voices.map Prod.fst := by
    intro hmem
    obtain ⟨e, he, heq⟩ := List.mem_map.mp hmem
    exact h1 e he heq
  have hnoop : removeVoice st id = st := by
    rw [removeVoice, if_neg hnotMem, hnoopKey]
  refine ⟨hnoop, by rw [hnoop, hnoop], ?_⟩
  have hvadd : (addVoice st v id key).voices = st.voices ++ [(id, v)] := by
    rw [addVoice]
    exact if_neg hnotMem
  have hvfilter : (st.voices ++ [(id, v)]).filter (fun e => e.1 ≠ id)
      = st.voices := by
    rw [List.filter_append]
    have hl : st.voices.filter (fun e => e.1 ≠ id) = st.voices := by
      apply List.filter_eq_self.mpr
      intro e he
      simpa using h1 e he
    have hr : ([(id, v)] : List (String × V)).filter (fun e => e.1 ≠ id)
        = [] := by
      simp
    rw [hl, hr, List.append_nil]
  have hmemAdd : id ∈ (addVoice st v id key).voices.map Prod.fst := by
    rw [hvadd]
    simp
  have hkadd : ∀ kk, key = some kk → kk ≠ "" →
      (addVoice st v id key).keymap = st.keymap ++ [(kk.toLower, id)] := by
    intro kk hkk hne
    rw [addVoice]
    simp only [hkk, addKey]
    rw [if_neg hne, dictSet, if_neg]
    intro hmem
    obtain ⟨e, he, heq⟩ := List.mem_map.mp hmem
    exact h3 kk hkk e he heq
  rcases key with _ | kk
  · have hkeep : (addVoice st v id none).keymap = st.keymap := rfl
    rw [removeVoice, hkeep, hnoopKey, hvadd, if_pos (by rw [hvadd] at hmemAdd; exact hmemAdd)]
    rw [hvfilter]
  · by_cases hne : kk = ""
    · have hkeep : (addVoice st v id (some kk)).keymap = st.keymap := by
        rw [addVoice]
        subst hne
        simp [addKey]
      rw [removeVoice, hkeep, hnoopKey, hvadd,
        if_pos (by rw [hvadd] at hmemAdd; exact hmemAdd), hvfilter]
    · have hk := hkadd kk rfl hne
      have hkfilter : (st.keymap ++ [(kk.toLower, id)]).filter
          (fun e => e.2 ≠ id) = st.keymap := by
        rw [List.filter_append, hnoopKey]
        simp
      rw [removeVoice, hk, hkfilter, hvadd,
        if_pos (by rw [hvadd] at hmemAdd; exact hmemAdd), hvfilter]

/-- C9 witness: the empty engine, adding voice `()` under id "a" with key
"z" and removing it again. -/
theorem C9_remove_voice_amended_witness :
    (∀ e ∈ ([] : List (String × Unit)), e.1 ≠ "a") ∧
    (removeVoice (⟨[], []⟩ : EngineState Unit) "a" = ⟨[], []⟩ ∧
     removeVoice (removeVoice (⟨[], []⟩ : EngineState Unit) "a") "a" = ⟨[], []⟩ ∧
     removeVoice (addVoice (⟨[], []⟩ : EngineState Unit) () "a" (some "z")) "a"
        = ⟨[], []⟩) :=
  ⟨fun e he => absurd he (List.not_mem_nil e),
   C9_remove_voice_amended ⟨[], []⟩ () "a" (some "z")
     (fun e he => absurd he (List.not_mem_nil e))
     (fun e he => absurd he (List.not_mem_nil e))
     (fun _ _ e he => absurd he (List.not_mem_nil e))⟩

/-- C9 counterexample: starting from the reachable state
`add_voice(v1, "v1", key="z")` (whose keymap binds the lowercased "z" to
"v1"), calling `add_voice(v2, "v2", key="z")` overwrites that keymap entry
and the following `remove_voice("v2")` deletes it outright: the engine
ends with an empty keymap, not the keymap it had before the add/remove
pair, so the round trip of the claim does not restore the state. -/
theorem C9_counterexample :
    removeVoice (addVoice (addVoice (⟨[], []⟩ : EngineState Unit) () "v1"
        (some "z")) () "v2" (some "z")) "v2"
      = ⟨[("v1", ())], []⟩ ∧
    (addVoice (⟨[], []⟩ : EngineState Unit) () "v1" (some "z")).keymap
      = [("z".toLower, "v1")] ∧
    ([] : List (String × String)) ≠ [("z".toLower, "v1")] := by
  have h1 : addVoice (⟨[], []⟩ : EngineState Unit) () "v1" (some "z")
      = ⟨[("v1", ())], [("z".toLower, "v1")]⟩ := by
    rw [addVoice, addKey]
    rw [if_neg (by decide : ¬("z" = "")), dictSet, if_neg (by simp), dictSet,
      if_neg (by simp)]
    rfl
  have h2 : addVoice (⟨[("v1", ())], [("z".toLower, "v1")]⟩ : EngineState Unit)
      () "v2" (some "z")
      = ⟨[("v1", ()), ("v2", ())], [("z".toLower, "v2")]⟩ := by
    rw [addVoice, addKey]
    rw [if_neg (by decide : ¬("z" = ""))]
    have hkm : dictSet [("z".toLower, "v1")] "z".toLower "v2"
        = [("z".toLower, "v2")] := by
      rw [dictSet, if_pos (by simp)]
      simp
    have hvs : dictSet [("v1", ())] "v2" () = [("v1", ()), ("v2", ())] := by
      rw [dictSet, if_neg (by simp)]
      rfl
    rw [hkm, hvs]
  have h3 : removeVoice
      (⟨[("v1", ()), ("v2", ())], [("z".toLower, "v2")]⟩ : EngineState Unit)
      "v2" = ⟨[("v1", ())], []⟩ := by
    rw [removeVoice]
    have hkm : ([("z".toLower, "v2")] : List (String × String)).filter
        (fun e => e.2 ≠ "v2") = [] := by
      simp
    have hvs : (if "v2" ∈ ([("v1", ()), ("v2", ())] :
          List (String × Unit)).map Prod.fst then
        ([("v1", ()), ("v2", ())] : List (String × Unit)).filter
          (fun e => e.1 ≠ "v2")
      else [("v1", ()), ("v2", ())]) = [("v1", ())] := by
      rw [if_pos (by simp)]
      simp
    rw [hkm, hvs]
  refine ⟨?_, by rw [h1], by simp⟩
  rw [h1, h2, h3]

/-! ### SynthEngine audio callback (engine.py lines 110-135)

`_callback` runs over the registry's voice objects; rendering mutates a
voice in place, modelled by the post-render state returned by `renderV`.
The lock acquisition and the dual-mono `np.column_stack` write are not
modelled; the block written to both channels is the returned mix. -/

/-- The `for voice in self.voices.values()` loop of `_callback`: only a
voice whose `active` flag is true *before* rendering is rendered; its
block is added into the mix (`mix += signal`) and counted.  Inactive
voices are skipped entirely — not rendered, their state untouched. -/
def engineLoopAux {V : Type} (renderV : V → ℕ → List ℝ × V) (activeV : V → Bool)
    (frames : ℕ) :
    List (String × V) → List ℝ → ℕ → List (String × V) →
      Option (List ℝ × ℕ × List (String × V))
  | [], mix, count, done => some (mix, count, done)
  | kv :: rest, mix, count, done =>
    if activeV kv.2 then
      let r := renderV kv.2 frames
      match npAdd mix r.1 with
      | some mix2 =>
          engineLoopAux renderV activeV frames rest mix2 (count + 1)
            (done ++ [(kv.1, r.2)])
      | none => none
    else
      engineLoopAux renderV activeV frames rest mix count (done ++ [kv])

/-- `SynthEngine._callback`: render the active voices into a zero mix and,
when the active count is positive, scale by `1/sqrt(active)` (equal-power
mixing).  Returns the output block and the post-callback voice states. -/
def engineCallback {V : Type} (renderV : V → ℕ → List ℝ × V)
    (activeV : V → Bool) (voices : List (String × V)) (frames : ℕ) :
    Option (List ℝ × List (String × V)) :=
  match engineLoopAux renderV activeV frames voices
      (List.replicate frames 0) 0 [] with
  | none => none
  | some (mix, count, done) =>
      some ((if 0 < count then
               mix.map (fun x => x * (1 / Real.sqrt (count : ℝ)))
             else mix), done)

/-- Specification-side view: the blocks rendered by the voices whose
`active` flag is true. -/
def callbackActiveBlocks {V : Type} (renderV : V → ℕ → List ℝ × V)
    (activeV : V → Bool) (voices : List (String × V)) (frames : ℕ) :
    List (List ℝ) :=
  (voices.filter (fun kv => activeV kv.2)).map (fun kv => (renderV kv.2 frames).1)

/-- Specification-side view: the voice states after the callback — active
voices carry their post-render state, inactive voices are untouched. -/
def callbackPostVoices {V : Type} (renderV : V → ℕ → List ℝ × V)
    (activeV : V → Bool) (voices : List (String × V)) (frames : ℕ) :
    List (String × V) :=
  voices.map (fun kv =>
    if activeV kv.2 then (kv.1, (renderV kv.2 frames).2) else kv)

lemma engineLoopAux_spec {V : Type} (renderV : V → ℕ → List ℝ × V)
    (activeV : V → Bool) (frames : ℕ) :
    ∀ (vs : List (String × V)) (mix : List ℝ) (count : ℕ)
      (done : List (String × V)),
      mix.length = frames →
      (∀ kv ∈ vs, activeV kv.2 = true →
        ((renderV kv.2 frames).1).length = frames) →
      engineLoopAux renderV activeV frames vs mix count done
        = some ((callbackActiveBlocks renderV activeV vs frames).foldl
                  (fun acc b => List.zipWith (· + ·) acc b) mix,
                count + (callbackActiveBlocks renderV activeV vs frames).length,
                done ++ callbackPostVoices renderV activeV vs frames) := by
  intro vs
  induction vs with
  | nil =>
      intro mix count done _ _
      simp [engineLoopAux, callbackActiveBlocks, callbackPostVoices]
  | cons kv rest ih =>
      intro mix count done hmix hlen
      rw [engineLoopAux]
      by_cases ha : activeV kv.2
      · have hlkv : ((renderV kv.2 frames).1).length = frames :=
          hlen kv (List.mem_cons_self kv rest) ha
        have hadd : npAdd mix (renderV kv.2 frames).1
            = some (List.zipWith (· + ·) mix (renderV kv.2 frames).1) := by
          rw [npAdd, if_pos (by rw [hlkv, hmix])]
        have hzlen : (List.zipWith (· + ·) mix (renderV kv.2 frames).1).length
            = frames := by
          rw [List.length_zipWith, hlkv, hmix, min_self]
        simp only [ha, if_true, hadd]
        rw [ih _ _ _ hzlen
          (fun w hw hwa => hlen w (List.mem_cons_of_mem kv hw) hwa)]
        simp only [callbackActiveBlocks, callbackPostVoices, List.filter_cons,
          ha, List.map_cons, List.foldl_cons, List.length_cons]
        simp [Nat.add_assoc, Nat.add_comm, Nat.add_left_comm, List.append_assoc]
      · have ha2 : activeV kv.2 = false := Bool.eq_false_iff.mpr ha
        simp only [ha2, Bool.false_eq_true, if_false]
        rw [ih _ _ _ hmix
          (fun w hw hwa => hlen w (List.mem_cons_of_mem kv hw) hwa)]
        simp only [callbackActiveBlocks, callbackPostVoices, List.filter_cons,
          ha2, List.map_cons, Bool.false_eq_true, if_false]
        simp [List.append_assoc]

/-- C8 (amended).  On each callback invocation the engine renders every
registered voice whose `active` flag is true — voices with `active`
false are skipped, not rendered, and their state is untouched — sums the
rendered blocks and, when the active count is positive, scales the sum by
`1/sqrt(activeCount)` (equal-power mixing) before writing it out.  (The
engine lock serializing this against registry mutation is a concurrency
property outside this embedding.) -/
theorem C8_callback_amended {V : Type} (renderV : V → ℕ → List ℝ × V)
    (activeV : V → Bool) (voices : List (String × V)) (frames : ℕ)
    (hlen : ∀ kv ∈ voices, activeV kv.2 = true →
      ((renderV kv.2 frames).1).length = frames) :
    engineCallback renderV activeV voices frames
      = some ((if 0 < (callbackActiveBlocks renderV activeV voices frames).length
               then ((callbackActiveBlocks renderV activeV voices frames).foldl
                      (fun acc b => List.zipWith (· + ·) acc b)
                      (List.replicate frames 0)).map
                      (fun x => x * (1 / Real.sqrt
                        ((callbackActiveBlocks renderV activeV voices frames).length : ℝ)))
               else List.replicate frames 0),
              callbackPostVoices renderV activeV voices frames) := by
  rw [engineCallback,
    engineLoopAux_spec renderV activeV frames voices (List.replicate frames 0)
      0 [] (List.length_replicate frames 0) hlen]
  simp only [Nat.zero_add, List.nil_append]
  by_cases hz : 0 < (callbackActiveBlocks renderV activeV voices frames).length
  · rw [if_pos hz, if_pos hz]
  · rw [if_neg hz, if_neg hz]
    have : callbackActiveBlocks renderV activeV voices frames = [] :=
      List.length_eq_zero.mp (by omega)
    rw [this, List.foldl_nil]

/-- C8 witness: a single active voice rendering the constant block 1 over
2 frames. -/
theorem C8_callback_amended_witness :
    (∀ kv ∈ ([("a", 0)] : List (String × ℕ)),
      (fun (_ : ℕ) => true) kv.2 = true →
      (((fun (n : ℕ) (f : ℕ) => (List.replicate f (1 : ℝ), n + 1)) kv.2 2).1).length
        = 2) ∧
    engineCallback (fun (n : ℕ) (f : ℕ) => (List.replicate f (1 : ℝ), n + 1))
        (fun _ => true) [("a", 0)] 2
      = some ((if 0 < (callbackActiveBlocks
                (fun (n : ℕ) (f : ℕ) => (List.replicate f (1 : ℝ), n + 1))
                (fun _ => true) [("a", 0)] 2).length
               then ((callbackActiveBlocks
                      (fun (n : ℕ) (f : ℕ) => (List.replicate f (1 : ℝ), n + 1))
                      (fun _ => true) [("a", 0)] 2).foldl
                      (fun acc b => List.zipWith (· + ·) acc b)
                      (List.replicate 2 0)).map
                      (fun x => x * (1 / Real.sqrt
                        ((callbackActiveBlocks
                          (fun (n : ℕ) (f : ℕ) => (List.replicate f (1 : ℝ), n + 1))
                          (fun _ => true) [("a", 0)] 2).length : ℝ)))
               else List.replicate 2 0),
              callbackPostVoices
                (fun (n : ℕ) (f : ℕ) => (List.replicate f (1 : ℝ), n + 1))
                (fun _ => true) [("a", 0)] 2) := by
  have hlen : ∀ kv ∈ ([("a", 0)] : List (String × ℕ)),
      (fun (_ : ℕ) => true) kv.2 = true →
      (((fun (n : ℕ) (f : ℕ) => (List.replicate f (1 : ℝ), n + 1)) kv.2 2).1).length
        = 2 := by
    intro kv hkv _
    simp
  exact ⟨hlen,
    C8_callback_amended (fun (n : ℕ) (f : ℕ) => (List.replicate f (1 : ℝ), n + 1))
      (fun _ => true) [("a", 0)] 2 hlen⟩

/-- C8 counterexample: one registered voice with `active = false`, whose
render would change its state from 0 to 1 and produce the block `[1, 1]`.
The callback leaves the state at 0 (the voice was never rendered) and
writes silence — not the rendered-and-summed block the claim predicts for
"every currently-registered voice". -/
theorem C8_counterexample :
    engineCallback (fun (n : ℕ) (f : ℕ) => (List.replicate f (1 : ℝ), n + 1))
        (fun _ => false) [("a", 0)] 2
      = some (List.replicate 2 0, [("a", 0)]) ∧
    ((fun (n : ℕ) (f : ℕ) => (List.replicate f (1 : ℝ), n + 1)) 0 2).2 = 1 ∧
    (1 : ℕ) ≠ 0 ∧
    List.replicate 2 (0 : ℝ) ≠ List.replicate 2 (1 : ℝ) := by
  refine ⟨?_, rfl, by decide, ?_⟩
  · simp [engineCallback, engineLoopAux]
  · intro h
    rw [List.replicate, List.replicate] at h
    have := List.head_eq_of_cons_eq h
    norm_num at this

end

end Synth8
